import Mathlib

set_option maxRecDepth 4000

/-!
Shallow embedding of `src/create_workflow_template.py`.

The two pieces of domain logic are embedded as pure Lean functions:

* `find_parameters_cell` (source lines 69-116): the parameter-cell
  extractor.  The Python function takes a file path, reads the notebook
  with `nbformat` and walks `nb.cells`; file reading and JSON parsing
  are I/O plumbing outside the core (spec section 1), so the embedding
  starts from the ordered list of cells, each carrying its `cell_type`,
  its `metadata.tags` list and its `source` text.

* `create_workflow_template` (source lines 119-226): the template
  synthesizer.  Hera model classes (`WorkflowTemplate`, `Container`,
  `Parameter`, `GitArtifact`, `ArtifactoryArtifact`) are embedded as
  plain structures holding exactly the fields the script sets; the
  f-string that builds the in-container shell script is embedded as the
  concatenation of its literal parts with the two interpolated
  expressions (`' '.join(parameters.keys())` and `notebook_path`).

Python string methods (`strip`, `split`, `startswith`, `in`) are
embedded as character-list functions below so that every definition is
kernel-computable; they follow the Python semantics exactly for the
character sets involved.  Console printing (`print(...)`) carries no
data and is dropped.
-/

/-- A notebook cell as the extractor sees it: `cell.cell_type`,
`cell.get('metadata', {}).get('tags', [])` and `cell.source`
(source lines 89-97). -/
structure Cell where
  cell_type : String
  tags : List String
  source : String
deriving DecidableEq, Repr

/-- One discovered parameter: the `var_name` key and the `var_value`
stored for it in the `parameters` dict (source lines 106-109).  The
spec calls the second field `raw_default`. -/
structure ParamEntry where
  name : String
  value : String
deriving DecidableEq, Repr

/-- The assignment character `=` the line parser splits on. -/
def eqChar : Char := Char.ofNat 61

/-- The comment marker `#` (source line 100). -/
def hashChar : Char := Char.ofNat 35

/-- The newline separator of `cell.source.split('\n')` (source line 97). -/
def nlChar : Char := Char.ofNat 10

/-- Python `s.strip()`: drop the maximal whitespace runs at both ends. -/
def pyStrip (s : String) : String :=
  String.mk (((s.toList.dropWhile Char.isWhitespace).reverse.dropWhile
    Char.isWhitespace).reverse)

/-- Python `s.startswith(c)` for a one-character prefix. -/
def startsWithChar (s : String) (c : Char) : Bool :=
  match s.toList with
  | [] => false
  | a :: _ => a = c

/-- Python `s.split(sep)` on a one-character separator, on character
lists: `"a\nb" -> ["a", "b"]`, `"a\n" -> ["a", ""]`, `"" -> [""]`. -/
def splitChar (sep : Char) : List Char → List (List Char)
  | [] => [[]]
  | c :: cs =>
    match splitChar sep cs with
    | [] => [[]]
    | r :: rs => if c = sep then [] :: r :: rs else (c :: r) :: rs

/-- Python `cell.source.split('\n')` (source line 97). -/
def splitLines (s : String) : List String :=
  (splitChar nlChar s.toList).map String.mk

/-- Python `line.split('=', 1)` when `'=' in line` holds: the characters
before the first separator and the characters after it (exactly two
parts, so the `len(parts) == 2` check at source line 105 is always
true under the guard at line 103). -/
def splitFirst (sep : Char) : List Char → List Char × List Char
  | [] => ([], [])
  | c :: cs =>
    if c = sep then ([], cs)
    else
      let p := splitFirst sep cs
      (c :: p.1, p.2)

/-- One iteration of the line loop at source lines 97-110: strip the
line, skip empty and comment lines, require a `=` that is not the first
character, split on the first `=`, and strip both sides.  Returns the
(name, raw default) pair for qualifying lines and `none` for skipped
ones. -/
def parseAssignLine (raw : String) : Option (String × String) :=
  let line := pyStrip raw
  if line.toList.isEmpty || startsWithChar line hashChar then none
  else if line.toList.contains eqChar && !startsWithChar line eqChar then
    let p := splitFirst eqChar line.toList
    some (pyStrip (String.mk p.1), pyStrip (String.mk p.2))
  else none

/-- Python dict assignment `parameters[var_name] = var_value` (source
line 109): if the key is present its value is updated in place, keeping
its original position; otherwise the pair is appended. -/
def insertParam : List ParamEntry → String → String → List ParamEntry
  | [], n, v => [⟨n, v⟩]
  | e :: es, n, v =>
    if e.name = n then ⟨n, v⟩ :: es
    else e :: insertParam es n v

/-- The loop over `cell.source.split('\n')` (source lines 97-110),
threading the `parameters` dict. -/
def parse_cell_lines : List String → List ParamEntry → List ParamEntry
  | [], params => params
  | l :: ls, params =>
    match parseAssignLine l with
    | none => parse_cell_lines ls params
    | some (n, v) => parse_cell_lines ls (insertParam params n v)

/-- The cell scan of `find_parameters_cell` (source lines 89-116): walk
the cells in order; the first code cell whose tags contain
`"parameters"` is parsed and the loop `break`s; everything else is
skipped.  No qualifying cell yields the empty dict. -/
def find_parameters_cell : List Cell → List ParamEntry
  | [] => []
  | c :: cs =>
    if c.cell_type = "code" ∧ "parameters" ∈ c.tags then
      parse_cell_lines (splitLines c.source) []
    else find_parameters_cell cs

/-- The single-quote character, part of the strip set at source line 154. -/
def squoteChar : Char := Char.ofNat 39

/-- The double-quote character, part of the strip set at source line 154. -/
def dquoteChar : Char := Char.ofNat 34

/-- The character class of `default_value.strip("'\" ")` (source line
154): single quote, double quote, space. -/
def stripSet : List Char := [squoteChar, dquoteChar, Char.ofNat 32]

/-- Membership in the strip character class of source line 154. -/
def stripP (c : Char) : Bool := stripSet.contains c

/-- Python `default_value.strip("'\" ")` (source line 154): drop the
maximal runs of characters of `stripSet`, in any interleaved
combination, from both ends. -/
def stripQuoteSpace (s : String) : String :=
  String.mk (((s.toList.dropWhile stripP).reverse.dropWhile stripP).reverse)

/-- Hera `Parameter(name=..., default=...)` (source line 156). -/
structure Parameter where
  name : String
  default : String
deriving DecidableEq, Repr

/-- Hera `GitArtifact(name=..., path=..., repo=..., revision=...)`
(source lines 173-178). -/
structure GitArtifact where
  name : String
  path : String
  repo : String
  revision : String
deriving DecidableEq, Repr

/-- Hera `ArtifactoryArtifact(name=..., path=...)` (source lines
184-187). -/
structure ArtifactoryArtifact where
  name : String
  path : String
deriving DecidableEq, Repr

/-- An element of the container's `inputs` list (source lines 171-181):
either the source-fetch `GitArtifact` or one inherited workflow
`Parameter`. -/
inductive ContainerInput where
  | git : GitArtifact → ContainerInput
  | param : Parameter → ContainerInput
deriving DecidableEq, Repr

/-- Hera `Container(...)` (source lines 168-223), with the fields the
script sets. -/
structure Container where
  name : String
  image : String
  inputs : List ContainerInput
  outputs : List ArtifactoryArtifact
  command : List String
  args : List String
deriving DecidableEq, Repr

/-- Hera `WorkflowTemplate(...)` (source lines 160-165); the container
created inside the `with` block is attached as its single template. -/
structure WorkflowTemplate where
  name : String
  nspace : String
  entrypoint : String
  arguments : List Parameter
  templates : List Container
deriving DecidableEq, Repr

/-- Python `' '.join(keys)` (source line 208). -/
def joinKeys : List String → String
  | [] => ""
  | [n] => n
  | n :: rest => n ++ " " ++ joinKeys rest

/-- The literal text of the command f-string (source lines 192-208) up
to and including `for param_name in `, i.e. everything before the
interpolated `' '.join(parameters.keys())`. -/
def scriptHead : String :=
  "\n" ++
  "                set -ex  # Exit on error, print commands\n" ++
  "                \n" ++
  "                # Ensure output directory exists\n" ++
  "                mkdir -p /mnt/outputs\n" ++
  "                \n" ++
  "                # Install dependencies from the repo\n" ++
  "                # (Add error handling if file doesn\x27t exist)\n" ++
  "                if [ -f /mnt/repo/requirements.txt ]; then\n" ++
  "                    pip install -r /mnt/repo/requirements.txt\n" ++
  "                else\n" ++
  "                    echo \"No requirements.txt found, skipping.\"\n" ++
  "                fi\n" ++
  "                \n" ++
  "                # Build the papermill command with parameters\n" ++
  "                papermill_args=\"\"\n" ++
  "                for param_name in "

/-- The literal text of the command f-string between the interpolated
key join and the `papermill` invocation (source lines 208-217): the
shell loop that accumulates `papermill_args`.  Python escape
processing turns the source's `{{{{`/`}}}}` into `\x7b\x7b`/`\x7d\x7d`,
`${{param_name}}` into `$\x7bparam_name\x7d` and `\"` into a plain
double quote. -/
def scriptLoop : String :=
  "; do\n" ++
  "                    # This is how we get the value of the Argo parameter\n" ++
  "                    param_value=$(echo \"\x7b\x7binputs.parameters.$\x7bparam_name\x7d\x7d\x7d\")\n" ++
  "                    papermill_args=\"$papermill_args -p $param_name \"$param_value\"\"\n" ++
  "                done\n" ++
  "                \n" ++
  "                echo \"Running papermill...\"\n" ++
  "                \n" ++
  "                # Execute papermill\n" ++
  "                "

/-- The literal text of the command f-string from `papermill` up to and
including `/mnt/repo/`, i.e. everything before the interpolated
`notebook_path` (source lines 217-218). -/
def scriptInvoke : String :=
  "papermill \\\n" ++
  "                    /mnt/repo/"

/-- The literal text of the command f-string after the interpolated
`notebook_path` (source lines 218-221): the fixed output path and the
accumulated flag list. -/
def scriptTail : String :=
  " \\\n" ++
  "                    /mnt/outputs/output_notebook.ipynb \\\n" ++
  "                    $papermill_args\n" ++
  "                "

/-- The full command f-string (source lines 192-221): literal parts
with the two interpolations spliced in. -/
def commandArgsText (parameters : List ParamEntry) (notebook_path : String) : String :=
  scriptHead ++ joinKeys (parameters.map ParamEntry.name) ++ scriptLoop
    ++ scriptInvoke ++ notebook_path ++ scriptTail

/-- The `workflow_parameters` list built at source lines 150-158: one
Hera `Parameter` per extracted entry, in order, with the default
cleaned by `strip("'\" ")`. -/
def workflow_parameters (parameters : List ParamEntry) : List Parameter :=
  parameters.map (fun p => ⟨p.name, stripQuoteSpace p.value⟩)

/-- `create_workflow_template` (source lines 119-226): builds the
workflow template with the cleaned parameter list as its arguments and
one container template carrying the git source-fetch input, the
inherited parameter inputs, the artifact output and the shell command. -/
def create_workflow_template (template_name git_repo_url git_branch notebook_path : String)
    (parameters : List ParamEntry) (runner_image nspace : String) : WorkflowTemplate :=
  let ps := workflow_parameters parameters
  { name := template_name
    nspace := nspace
    entrypoint := "run-notebook"
    arguments := ps
    templates := [{
      name := "run-notebook"
      image := runner_image
      inputs := ContainerInput.git ⟨"repo", "/mnt/repo", git_repo_url, git_branch⟩
        :: ps.map ContainerInput.param
      outputs := [⟨"executed-notebook", "/mnt/outputs/output_notebook.ipynb"⟩]
      command := ["/bin/sh", "-c"]
      args := [commandArgsText parameters notebook_path] }] }

/-- POSIX field splitting of an unquoted word list on whitespace, used
to model which words the generated `for param_name in ...; do` loop
iterates over.  The accumulator holds the current word reversed. -/
def fieldSplit : List Char → List Char → List String
  | [], acc => if acc.isEmpty then [] else [String.mk acc.reverse]
  | c :: cs, acc =>
    if c.isWhitespace then
      if acc.isEmpty then fieldSplit cs []
      else String.mk acc.reverse :: fieldSplit cs []
    else fieldSplit cs (c :: acc)

/-- The words the generated shell `for` loop iterates over. -/
def shellWords (s : String) : List String := fieldSplit s.toList []

/-- The Argo parameter-reference token the loop body builds for one
iterated word: shell expansion of `$\x7bparam_name\x7d` inside
`\x7b\x7binputs.parameters.$\x7bparam_name\x7d\x7d\x7d`. -/
def paramRefToken (n : String) : String :=
  "\x7b\x7binputs.parameters." ++ n ++ "\x7d\x7d"

/-- The text one loop iteration appends to `papermill_args` (source
line 211), after substituting the shell variables: ` -p <name>
"<value>"`. -/
def flagPairText (n v : String) : String :=
  " -p " ++ n ++ " \"" ++ v ++ "\""

/-- The shell loop at source lines 208-212, accumulating the flag list:
each iterated word is resolved through its parameter-reference token
(`resolve` abstracts the runtime's token-to-value substitution) and
appended as one flag pair. -/
def papermill_args (resolve : String → String) : List String → String → String
  | [], acc => acc
  | n :: ns, acc =>
    papermill_args resolve ns (acc ++ flagPairText n (resolve (paramRefToken n)))

/-- Concatenation of a list of strings (used to state what the shell
loop accumulates). -/
def joinAll : List String → String
  | [] => ""
  | s :: ss => s ++ joinAll ss

/-- A shell-safe parameter name: non-empty with no whitespace, so that
the generated `for` loop iterates it as a single word.  This is the
"non-empty token" shape the spec's data model gives to parameter
names. -/
def isShellToken (n : String) : Prop :=
  n ≠ "" ∧ ∀ c ∈ n.toList, c.isWhitespace = false

instance (n : String) : Decidable (isShellToken n) := by
  unfold isShellToken
  infer_instance

/-- Characterization of a character-class strip: `res` is an infix of
`v` obtained by removing a (possibly interleaved) run of strip-class
characters at each end, maximally — the remaining ends are not in the
class. -/
def IsClassStripped (v res : String) : Prop :=
  ∃ pre post : List Char,
    v.toList = pre ++ res.toList ++ post
    ∧ pre.all stripP = true
    ∧ post.all stripP = true
    ∧ (res.toList.head?.all fun c => !stripP c) = true
    ∧ (res.toList.getLast?.all fun c => !stripP c) = true

theorem strToList_mk (l : List Char) : (String.mk l).toList = l := rfl

theorem strMk_toList (s : String) : String.mk s.toList = s := by
  cases s
  rfl

theorem strToList_append (a b : String) : (a ++ b).toList = a.toList ++ b.toList := by
  cases a
  cases b
  rfl

theorem strEq_of_toList (a b : String) (h : a.toList = b.toList) : a = b := by
  cases a
  cases b
  exact congrArg String.mk h

theorem strAppend_assoc (a b c : String) : a ++ b ++ c = a ++ (b ++ c) :=
  strEq_of_toList _ _ (by simp [strToList_append, List.append_assoc])

theorem strAppend_empty (s : String) : s ++ "" = s :=
  strEq_of_toList _ _ (by simp [strToList_append])

theorem strEmpty_append (s : String) : "" ++ s = s :=
  strEq_of_toList _ _ (by simp [strToList_append])

theorem strToList_eq_nil_iff (s : String) : s.toList = [] ↔ s = "" := by
  constructor
  · intro h
    exact strEq_of_toList _ _ h
  · intro h
    rw [h]
    rfl

theorem headAll_append (q : Char → Bool) (m t : List Char)
    (h : ((m ++ t).head?.all q) = true) : (m.head?.all q) = true := by
  cases m with
  | nil => simp
  | cons a as => simpa using h

theorem dropWhile_head_all (p : Char → Bool) (l : List Char) :
    ((l.dropWhile p).head?.all fun c => !p c) = true := by
  induction l with
  | nil => rfl
  | cons c cs ih =>
    by_cases h : p c
    · simpa [List.dropWhile_cons, h] using ih
    · simp [List.dropWhile_cons, h]

theorem dropWhile_pre (p : Char → Bool) (l : List Char) :
    ∃ t : List Char, t ++ l.dropWhile p = l ∧ t.all p = true := by
  induction l with
  | nil => exact ⟨[], rfl, rfl⟩
  | cons c cs ih =>
    by_cases h : p c
    · obtain ⟨t, ht, hall⟩ := ih
      exact ⟨c :: t, by simp [List.dropWhile_cons, h, ht], by simp [h, hall]⟩
    · exact ⟨[], by simp [List.dropWhile_cons, h], rfl⟩

theorem stripQuoteSpace_isClassStripped (v : String) :
    IsClassStripped v (stripQuoteSpace v) := by
  obtain ⟨pre, hpre, hpreall⟩ := dropWhile_pre stripP v.toList
  obtain ⟨q, hq, hqall⟩ := dropWhile_pre stripP (v.toList.dropWhile stripP).reverse
  have hmid : (stripQuoteSpace v).toList
      = ((v.toList.dropWhile stripP).reverse.dropWhile stripP).reverse := rfl
  have hr : (stripQuoteSpace v).toList ++ q.reverse = v.toList.dropWhile stripP := by
    rw [hmid, ← List.reverse_append, hq, List.reverse_reverse]
  refine ⟨pre, q.reverse, ?_, hpreall, ?_, ?_, ?_⟩
  · rw [List.append_assoc, hr, hpre]
  · rw [List.all_eq_true] at hqall ⊢
    intro x hx
    exact hqall x (List.mem_reverse.mp hx)
  · exact headAll_append _ _ _ (by rw [hr]; exact dropWhile_head_all stripP v.toList)
  · rw [hmid, List.getLast?_reverse]
    exact dropWhile_head_all stripP (v.toList.dropWhile stripP).reverse

theorem splitFirst_append (sep : Char) (a b : List Char) (h : sep ∉ a) :
    splitFirst sep (a ++ sep :: b) = (a, b) := by
  induction a with
  | nil => simp [splitFirst]
  | cons c cs ih =>
    have hc : ¬c = sep := fun hcs => h (hcs ▸ List.mem_cons_self c cs)
    have hcs : sep ∉ cs := fun hm => h (List.mem_cons_of_mem c hm)
    simp [splitFirst, hc, ih hcs]

theorem fieldSplit_no_ws (w : List Char) (hw : ∀ c ∈ w, c.isWhitespace = false) :
    ∀ (rest acc : List Char), fieldSplit (w ++ rest) acc = fieldSplit rest (w.reverse ++ acc) := by
  induction w with
  | nil => intro rest acc; simp
  | cons c cs ih =>
    intro rest acc
    have hc : c.isWhitespace = false := hw c (List.mem_cons_self c cs)
    have hcs : ∀ x ∈ cs, x.isWhitespace = false :=
      fun x hx => hw x (List.mem_cons_of_mem c hx)
    simp only [List.cons_append, fieldSplit, hc, Bool.false_eq_true, if_false]
    show fieldSplit (cs ++ rest) (c :: acc) = fieldSplit rest ((c :: cs).reverse ++ acc)
    rw [ih hcs rest (c :: acc)]
    simp [List.reverse_cons, List.append_assoc]

theorem shellWords_joinKeys (names : List String)
    (h : ∀ n ∈ names, isShellToken n) :
    shellWords (joinKeys names) = names := by
  induction names with
  | nil => rfl
  | cons n rest ih =>
    obtain ⟨hne, hnc⟩ := h n (List.mem_cons_self n rest)
    have hnl : n.toList ≠ [] := fun hl => hne ((strToList_eq_nil_iff n).mp hl)
    have hrev : n.toList.reverse ≠ [] := fun hl => hnl (by simpa using hl)
    have hrevE : n.toList.reverse.isEmpty = false := by
      cases hE : n.toList.reverse with
      | nil => exact absurd hE hrev
      | cons a as => rfl
    cases rest with
    | nil =>
      show fieldSplit (joinKeys [n]).toList [] = [n]
      have : (joinKeys [n]).toList = n.toList ++ [] := by simp [joinKeys]
      rw [this, fieldSplit_no_ws n.toList hnc [] []]
      simp only [List.append_nil, fieldSplit, hrevE, Bool.false_eq_true, if_false,
        List.reverse_reverse, strMk_toList]
    | cons m rest2 =>
      have hrest : ∀ x ∈ m :: rest2, isShellToken x :=
        fun x hx => h x (List.mem_cons_of_mem n hx)
      have hjoin : (joinKeys (n :: m :: rest2)).toList
          = n.toList ++ (Char.ofNat 32 :: (joinKeys (m :: rest2)).toList) := by
        show ((n ++ " ") ++ joinKeys (m :: rest2)).toList = _
        rw [strToList_append, strToList_append, List.append_assoc]
        rfl
      show fieldSplit (joinKeys (n :: m :: rest2)).toList [] = n :: m :: rest2
      rw [hjoin, fieldSplit_no_ws n.toList hnc _ []]
      have hws : (Char.ofNat 32).isWhitespace = true := by decide
      simp only [fieldSplit, hws, if_true, List.append_nil, hrevE,
        Bool.false_eq_true, if_false, List.reverse_reverse, strMk_toList]
      exact congrArg (n :: ·) (ih hrest)

theorem papermill_args_eq (resolve : String → String) (ns : List String) :
    ∀ acc, papermill_args resolve ns acc
      = acc ++ joinAll (ns.map fun n => flagPairText n (resolve (paramRefToken n))) := by
  induction ns with
  | nil => intro acc; simp [papermill_args, joinAll, strAppend_empty]
  | cons n ns ih =>
    intro acc
    simp only [papermill_args, List.map_cons, joinAll, ih, strAppend_assoc]

theorem insertParam_names_of_mem (ps : List ParamEntry) (n v : String)
    (h : n ∈ ps.map ParamEntry.name) :
    (insertParam ps n v).map ParamEntry.name = ps.map ParamEntry.name := by
  induction ps with
  | nil => simp at h
  | cons e es ih =>
    by_cases he : e.name = n
    · simp [insertParam, he]
    · have hm : n ∈ es.map ParamEntry.name := by
        rcases List.mem_cons.mp h with h1 | h1
        · exact absurd h1.symm he
        · exact h1
      simp [insertParam, he, ih hm]

theorem insertParam_names_of_not_mem (ps : List ParamEntry) (n v : String)
    (h : n ∉ ps.map ParamEntry.name) :
    (insertParam ps n v).map ParamEntry.name = ps.map ParamEntry.name ++ [n] := by
  induction ps with
  | nil => simp [insertParam]
  | cons e es ih =>
    have he : ¬e.name = n := fun hx => h (by simp [hx])
    have hm : n ∉ es.map ParamEntry.name := fun hx => h (by simp [hx])
    simp [insertParam, he, ih hm]

theorem filter_name_eq_nil (es : List ParamEntry) (n : String)
    (h : n ∉ es.map ParamEntry.name) :
    es.filter (fun e => e.name == n) = [] := by
  induction es with
  | nil => rfl
  | cons e es ih =>
    have he : ¬e.name = n := fun hx => h (by simp [hx])
    have hm : n ∉ es.map ParamEntry.name := fun hx => h (by simp [hx])
    simp [List.filter_cons, he, ih hm]

theorem insertParam_filter (ps : List ParamEntry) (n v : String)
    (hmem : n ∈ ps.map ParamEntry.name) (hnd : (ps.map ParamEntry.name).Nodup) :
    (insertParam ps n v).filter (fun e => e.name == n) = [⟨n, v⟩] := by
  induction ps with
  | nil => simp at hmem
  | cons e es ih =>
    rw [List.map_cons] at hnd
    obtain ⟨hnin, hnd2⟩ := List.nodup_cons.mp hnd
    by_cases he : e.name = n
    · have : n ∉ es.map ParamEntry.name := he ▸ hnin
      simp [insertParam, he, List.filter_cons, filter_name_eq_nil es n this]
    · have hm : n ∈ es.map ParamEntry.name := by
        rcases List.mem_cons.mp hmem with h1 | h1
        · exact absurd h1.symm he
        · exact h1
      simp [insertParam, he, List.filter_cons, ih hm hnd2]

theorem insertParam_nodup (ps : List ParamEntry) (n v : String)
    (hnd : (ps.map ParamEntry.name).Nodup) :
    ((insertParam ps n v).map ParamEntry.name).Nodup := by
  by_cases h : n ∈ ps.map ParamEntry.name
  · rw [insertParam_names_of_mem ps n v h]
    exact hnd
  · rw [insertParam_names_of_not_mem ps n v h]
    simpa using List.Nodup.append hnd (List.nodup_singleton n)
      (by simpa [List.disjoint_singleton] using h)

theorem parse_cell_lines_append (ls ms : List String) :
    ∀ acc, parse_cell_lines (ls ++ ms) acc = parse_cell_lines ms (parse_cell_lines ls acc) := by
  induction ls with
  | nil => intro acc; rfl
  | cons l ls ih =>
    intro acc
    cases h : parseAssignLine l with
    | none => simp [parse_cell_lines, h, ih]
    | some p => simp [parse_cell_lines, h, ih]

theorem parse_cell_lines_nodup (ls : List String) :
    ∀ acc, (acc.map ParamEntry.name).Nodup →
      ((parse_cell_lines ls acc).map ParamEntry.name).Nodup := by
  induction ls with
  | nil => intro acc h; exact h
  | cons l ls ih =>
    intro acc h
    cases hp : parseAssignLine l with
    | none => simpa [parse_cell_lines, hp] using ih acc h
    | some p =>
      simp only [parse_cell_lines, hp]
      exact ih (insertParam acc p.1 p.2) (insertParam_nodup acc p.1 p.2 h)

theorem find_parameters_cell_skip (pre rest : List Cell)
    (h : ∀ x ∈ pre, ¬(x.cell_type = "code" ∧ "parameters" ∈ x.tags)) :
    find_parameters_cell (pre ++ rest) = find_parameters_cell rest := by
  induction pre with
  | nil => rfl
  | cons c cs ih =>
    have hc := h c (List.mem_cons_self c cs)
    have hcs : ∀ x ∈ cs, ¬(x.cell_type = "code" ∧ "parameters" ∈ x.tags) :=
      fun x hx => h x (List.mem_cons_of_mem c hx)
    simp [find_parameters_cell, hc, ih hcs]

theorem find_parameters_cell_nodup (cells : List Cell) :
    ((find_parameters_cell cells).map ParamEntry.name).Nodup := by
  induction cells with
  | nil => exact List.nodup_nil
  | cons c cs ih =>
    by_cases h : c.cell_type = "code" ∧ "parameters" ∈ c.tags
    · simp only [find_parameters_cell, h, if_true]
      exact parse_cell_lines_nodup (splitLines c.source) [] List.nodup_nil
    · simpa [find_parameters_cell, h] using ih

theorem contains_append_cons (l m : List Char) (c : Char) :
    (l ++ c :: m).contains c = true := by
  induction l with
  | nil => simp
  | cons d l ih => simp [ih]

/-- C2: for every stripped, non-empty, non-comment line that contains a
`=` and does not begin with `=` — written as `a ++ "=" ++ b` with no `=`
in `a`, so the shown `=` is the first one — extraction splits on that
first `=` only: the stripped left token becomes the name and the entire
stripped remainder (later `=` characters included) becomes the raw
default. -/
theorem C2_split_on_first_eq (a b : String)
    (ha : eqChar ∉ a.toList)
    (htrim : pyStrip (a ++ "=" ++ b) = a ++ "=" ++ b)
    (hhash : startsWithChar (a ++ "=" ++ b) hashChar = false)
    (heq2 : startsWithChar (a ++ "=" ++ b) eqChar = false) :
    parseAssignLine (a ++ "=" ++ b) = some (pyStrip a, pyStrip b) := by
  have h1 : ("=" : String).toList = [eqChar] := by decide
  have htl : (a ++ "=" ++ b).toList = a.toList ++ eqChar :: b.toList := by
    rw [strToList_append, strToList_append, h1, List.append_assoc]
    rfl
  have hne : (a ++ "=" ++ b).toList.isEmpty = false := by
    rw [htl]
    cases a.toList <;> rfl
  simp only [parseAssignLine, htrim, hne, hhash, heq2]
  simp only [Bool.or_self, Bool.false_eq_true, if_false, Bool.not_false, Bool.and_true]
  have hsp := splitFirst_append eqChar a.toList b.toList ha
  rw [htl, hsp]
  simp [strMk_toList, contains_append_cons]

/-- C2 witness: the spec's own example line `x = a=b` yields name `x`
and raw default `a=b`. -/
theorem C2_split_on_first_eq_witness :
    parseAssignLine ("x " ++ "=" ++ " a=b") = some (pyStrip "x ", pyStrip " a=b")
    ∧ parseAssignLine "x = a=b" = some ("x", "a=b") :=
  ⟨C2_split_on_first_eq "x " " a=b" (by decide) (by decide) (by decide) (by decide),
   by decide⟩

/-- C3 counterexample: for the cell `n=1`, `m=5`, `n=2` the code keeps
the duplicate's EARLIER position (Python dict update semantics): the
result is `[n=2, m=5]`, not the claim's `[m=5, n=2]` in which `n` would
occupy the later occurrence's position. -/
theorem C3_counterexample :
    find_parameters_cell [⟨"code", ["parameters"], "n=1\nm=5\nn=2"⟩]
      = [⟨"n", "2"⟩, ⟨"m", "5"⟩]
    ∧ find_parameters_cell [⟨"code", ["parameters"], "n=1\nm=5\nn=2"⟩]
      ≠ [⟨"m", "5"⟩, ⟨"n", "2"⟩] :=
  ⟨by decide, by decide⟩

/-- C3 (amended): when a later line re-assigns a name that extraction
has already recorded, the result keeps a single entry for that name,
holding the LATER occurrence's value at the EARLIER (first) occurrence's
position: the name order of the parameter set is unchanged. -/
theorem C3_duplicate_overwrites_in_place (ls : List String) (l n v : String)
    (hl : parseAssignLine l = some (n, v))
    (hmem : n ∈ (parse_cell_lines ls []).map ParamEntry.name) :
    (parse_cell_lines (ls ++ [l]) []).map ParamEntry.name
        = (parse_cell_lines ls []).map ParamEntry.name
    ∧ (parse_cell_lines (ls ++ [l]) []).filter (fun e => e.name == n) = [⟨n, v⟩] := by
  have hstep : parse_cell_lines (ls ++ [l]) []
      = insertParam (parse_cell_lines ls []) n v := by
    rw [parse_cell_lines_append]
    simp [parse_cell_lines, hl]
  have hnd := parse_cell_lines_nodup ls [] List.nodup_nil
  exact ⟨hstep ▸ insertParam_names_of_mem _ n v hmem,
    hstep ▸ insertParam_filter _ n v hmem hnd⟩

/-- C3 witness: `n=1` then `m=5` then `n=2` keeps name order `[n, m]`
and stores value `2` in the single `n` entry. -/
theorem C3_duplicate_overwrites_in_place_witness :
    (parse_cell_lines (["n=1", "m=5"] ++ ["n=2"]) []).map ParamEntry.name
        = (parse_cell_lines ["n=1", "m=5"] []).map ParamEntry.name
    ∧ (parse_cell_lines (["n=1", "m=5"] ++ ["n=2"]) []).filter (fun e => e.name == "n")
        = [⟨"n", "2"⟩] :=
  C3_duplicate_overwrites_in_place ["n=1", "m=5"] "n=2" "n" "2" (by decide) (by decide)

/-- C4: the declared default of every parameter comes from its raw
default by removing leading/trailing runs of quote characters and
surrounding whitespace (the strip-class decomposition), and the spec's
round-trip examples hold end to end: `x = "hello"`, `x = 'hello'` and
unquoted `x = hello` all declare default `hello`. -/
theorem C4_default_round_trip :
    (∀ v : String, IsClassStripped v (stripQuoteSpace v))
    ∧ workflow_parameters (find_parameters_cell
        [⟨"code", ["parameters"], "x = \"hello\""⟩]) = [⟨"x", "hello"⟩]
    ∧ workflow_parameters (find_parameters_cell
        [⟨"code", ["parameters"], "x = \x27hello\x27"⟩]) = [⟨"x", "hello"⟩]
    ∧ workflow_parameters (find_parameters_cell
        [⟨"code", ["parameters"], "x = hello"⟩]) = [⟨"x", "hello"⟩] :=
  ⟨stripQuoteSpace_isClassStripped, by decide, by decide, by decide⟩

/-- C10: the quote-stripping is character-class based, not pair-matched:
every result is an infix obtained by dropping interleaved runs of
single quotes, double quotes and spaces from both ends (maximally), so
unbalanced `"hello'` yields `hello`, mixed `' "hi" '` yields `hi`,
`" ' x ' "` yields `x`, and interior quote characters are preserved. -/
theorem C10_class_strip_not_pair_matched :
    (∀ v : String, IsClassStripped v (stripQuoteSpace v))
    ∧ stripQuoteSpace "\"hello\x27" = "hello"
    ∧ stripQuoteSpace "\x27 \"hi\" \x27" = "hi"
    ∧ stripQuoteSpace "\" \x27 x \x27 \"" = "x"
    ∧ stripQuoteSpace "he\x27ll\"o" = "he\x27ll\"o" :=
  ⟨stripQuoteSpace_isClassStripped, by decide, by decide, by decide, by decide⟩

/-- C1: for every ParameterSet whose names have the data model's
"non-empty token" shape and are unique, the parameter names referenced
inside the generated command text — the words iterated by its
`for param_name in <' '.join(keys)>; do` loop — are exactly the
declared arguments' names, in the same order, each exactly once; their
parameter-reference tokens agree with the declared names in order; and
the accumulated flag list is exactly one ` -p <name> "<value>"` pair
per declared argument, in order (the empty set giving the empty flag
list is the instance at `parameters = []`). -/
theorem C1_command_text_names (parameters : List ParamEntry)
    (resolve : String → String)
    (htok : ∀ p ∈ parameters, isShellToken p.name)
    (hnd : (parameters.map ParamEntry.name).Nodup) :
    shellWords (joinKeys (parameters.map ParamEntry.name))
        = (workflow_parameters parameters).map Parameter.name
    ∧ (shellWords (joinKeys (parameters.map ParamEntry.name))).Nodup
    ∧ (shellWords (joinKeys (parameters.map ParamEntry.name))).map paramRefToken
        = ((workflow_parameters parameters).map Parameter.name).map paramRefToken
    ∧ papermill_args resolve (shellWords (joinKeys (parameters.map ParamEntry.name))) ""
        = joinAll ((workflow_parameters parameters).map
            (fun p => flagPairText p.name (resolve (paramRefToken p.name)))) := by
  have hnames : (workflow_parameters parameters).map Parameter.name
      = parameters.map ParamEntry.name := by
    simp [workflow_parameters, List.map_map]
  have hwords : shellWords (joinKeys (parameters.map ParamEntry.name))
      = parameters.map ParamEntry.name := by
    refine shellWords_joinKeys _ ?_
    intro n hn
    obtain ⟨p, hp, hpe⟩ := List.mem_map.mp hn
    exact hpe ▸ htok p hp
  have hflags : (workflow_parameters parameters).map
      (fun p => flagPairText p.name (resolve (paramRefToken p.name)))
      = (parameters.map ParamEntry.name).map
          (fun n => flagPairText n (resolve (paramRefToken n))) := by
    simp [workflow_parameters, List.map_map]
  refine ⟨by rw [hwords, hnames], by rw [hwords]; exact hnd,
    by rw [hwords, hnames], ?_⟩
  rw [papermill_args_eq resolve _ "", hwords, strEmpty_append, hflags]

/-- C1 witness: a two-parameter set, with the runtime resolution
abstracted by the identity map on tokens. -/
theorem C1_command_text_names_witness :
    shellWords (joinKeys (([⟨"alpha", "1"⟩, ⟨"beta", "2"⟩] : List ParamEntry).map
        ParamEntry.name))
      = (workflow_parameters [⟨"alpha", "1"⟩, ⟨"beta", "2"⟩]).map Parameter.name
    ∧ (shellWords (joinKeys (([⟨"alpha", "1"⟩, ⟨"beta", "2"⟩] : List ParamEntry).map
        ParamEntry.name))).Nodup
    ∧ (shellWords (joinKeys (([⟨"alpha", "1"⟩, ⟨"beta", "2"⟩] : List ParamEntry).map
        ParamEntry.name))).map paramRefToken
      = ((workflow_parameters [⟨"alpha", "1"⟩, ⟨"beta", "2"⟩]).map Parameter.name).map
          paramRefToken
    ∧ papermill_args id (shellWords (joinKeys (([⟨"alpha", "1"⟩, ⟨"beta", "2"⟩] :
        List ParamEntry).map ParamEntry.name))) ""
      = joinAll ((workflow_parameters [⟨"alpha", "1"⟩, ⟨"beta", "2"⟩]).map
          (fun p => flagPairText p.name (id (paramRefToken p.name)))) :=
  C1_command_text_names [⟨"alpha", "1"⟩, ⟨"beta", "2"⟩] id (by decide) (by decide)

/-- C5: the synthesized template's declared arguments correspond 1:1
to the ParameterSet, preserving order and names; there is exactly one
execution step; its inputs are one git source-fetch binding (repository
reference plus revision at the fixed mount path `/mnt/repo`) followed
by one input binding per declared argument, bound by name; and its
outputs are the single result binding at the fixed local output path. -/
theorem C5_workflow_structure (tn url br nbp img nsp : String) (ps : List ParamEntry) :
    (create_workflow_template tn url br nbp ps img nsp).arguments = workflow_parameters ps
    ∧ (create_workflow_template tn url br nbp ps img nsp).arguments.map Parameter.name
        = ps.map ParamEntry.name
    ∧ (create_workflow_template tn url br nbp ps img nsp).arguments.length = ps.length
    ∧ (create_workflow_template tn url br nbp ps img nsp).templates.length = 1
    ∧ (create_workflow_template tn url br nbp ps img nsp).templates.map Container.inputs
        = [ContainerInput.git ⟨"repo", "/mnt/repo", url, br⟩
            :: (workflow_parameters ps).map ContainerInput.param]
    ∧ (create_workflow_template tn url br nbp ps img nsp).templates.map Container.outputs
        = [[⟨"executed-notebook", "/mnt/outputs/output_notebook.ipynb"⟩]]
    ∧ (create_workflow_template tn url br nbp ps img nsp).templates.map Container.command
        = [["/bin/sh", "-c"]]
    ∧ (create_workflow_template tn url br nbp ps img nsp).templates.map Container.args
        = [[commandArgsText ps nbp]] := by
  refine ⟨rfl, ?_, ?_, rfl, rfl, rfl, rfl, rfl⟩
  · simp [create_workflow_template, workflow_parameters, List.map_map]
  · simp [create_workflow_template, workflow_parameters]

/-- C6: scanning in document order, parameters are taken from the first
code cell whose tags contain `"parameters"`; non-code cells and
untagged code cells before it are skipped, and every cell after it —
tagged or not — contributes nothing. -/
theorem C6_first_parameters_cell_wins (pre post : List Cell) (c : Cell)
    (hpre : ∀ x ∈ pre, ¬(x.cell_type = "code" ∧ "parameters" ∈ x.tags))
    (hc : c.cell_type = "code") (ht : "parameters" ∈ c.tags) :
    find_parameters_cell (pre ++ c :: post)
      = parse_cell_lines (splitLines c.source) [] := by
  rw [find_parameters_cell_skip pre (c :: post) hpre]
  simp [find_parameters_cell, hc, ht]

/-- C6 witness: a tagged markdown cell and an untagged code cell are
skipped, the first tagged code cell is parsed, and a later tagged code
cell is ignored. -/
theorem C6_first_parameters_cell_wins_witness :
    find_parameters_cell
        ([⟨"markdown", ["parameters"], "m=9"⟩, ⟨"code", [], "k=3"⟩]
          ++ ⟨"code", ["parameters"], "a=1"⟩ :: [⟨"code", ["parameters"], "b=2"⟩])
      = parse_cell_lines (splitLines "a=1") []
    ∧ parse_cell_lines (splitLines "a=1") [] = [⟨"a", "1"⟩] :=
  ⟨C6_first_parameters_cell_wins
      [⟨"markdown", ["parameters"], "m=9"⟩, ⟨"code", [], "k=3"⟩]
      [⟨"code", ["parameters"], "b=2"⟩]
      ⟨"code", ["parameters"], "a=1"⟩ (by decide) (by decide) (by decide),
   by decide⟩

/-- C7: with no qualifying tagged code cell the extraction returns the
empty ParameterSet; a line that strips to empty, starts with `#`, has
no `=`, or starts with `=` is silently skipped; a tagged cell all of
whose lines are skipped also yields the empty ParameterSet.  (The
embedding is a total function, matching the no-raise guarantee.) -/
theorem C7_missing_cell_and_malformed_lines :
    (∀ cells : List Cell,
        (∀ x ∈ cells, ¬(x.cell_type = "code" ∧ "parameters" ∈ x.tags)) →
        find_parameters_cell cells = [])
    ∧ (∀ raw : String,
        (pyStrip raw).toList.isEmpty = true
          ∨ startsWithChar (pyStrip raw) hashChar = true
          ∨ (pyStrip raw).toList.contains eqChar = false
          ∨ startsWithChar (pyStrip raw) eqChar = true →
        parseAssignLine raw = none)
    ∧ (∀ (ls : List String) (acc : List ParamEntry),
        (∀ l ∈ ls, parseAssignLine l = none) → parse_cell_lines ls acc = acc)
    ∧ (∀ c : Cell, c.cell_type = "code" → "parameters" ∈ c.tags →
        (∀ l ∈ splitLines c.source, parseAssignLine l = none) →
        find_parameters_cell [c] = []) := by
  have h3 : ∀ (ls : List String) (acc : List ParamEntry),
      (∀ l ∈ ls, parseAssignLine l = none) → parse_cell_lines ls acc = acc := by
    intro ls
    induction ls with
    | nil => intro acc h; rfl
    | cons l ls ih =>
      intro acc h
      have hl := h l (List.mem_cons_self l ls)
      simp [parse_cell_lines, hl, ih acc (fun x hx => h x (List.mem_cons_of_mem l hx))]
  refine ⟨?_, ?_, h3, ?_⟩
  · intro cells h
    have := find_parameters_cell_skip cells [] h
    simpa using this
  · intro raw hd
    simp only [parseAssignLine]
    simp
    intro hne hH2 hmem
    rcases hd with h | h | h | h
    · exact absurd (by simpa using h) hne
    · exact absurd h (by simp [hH2])
    · exact absurd hmem (by simpa using h)
    · exact h
  · intro c hc ht hlines
    simp [find_parameters_cell, hc, ht, h3 (splitLines c.source) [] hlines]

/-- C7 witness: instances of each conjunct at concrete notebooks and
lines. -/
theorem C7_missing_cell_and_malformed_lines_witness :
    find_parameters_cell
        [⟨"markdown", ["parameters"], "p=1"⟩, ⟨"code", ["other"], "q=2"⟩] = []
    ∧ parseAssignLine "   " = none
    ∧ parseAssignLine "# c = 1" = none
    ∧ parseAssignLine "justtext" = none
    ∧ parseAssignLine "=bad" = none
    ∧ find_parameters_cell [⟨"code", ["parameters"], "# note\n\njusttext\n=bad"⟩] = [] :=
  ⟨C7_missing_cell_and_malformed_lines.1
      [⟨"markdown", ["parameters"], "p=1"⟩, ⟨"code", ["other"], "q=2"⟩] (by decide),
   C7_missing_cell_and_malformed_lines.2.1 "   " (Or.inl (by decide)),
   C7_missing_cell_and_malformed_lines.2.1 "# c = 1" (Or.inr (Or.inl (by decide))),
   C7_missing_cell_and_malformed_lines.2.1 "justtext" (Or.inr (Or.inr (Or.inl (by decide)))),
   C7_missing_cell_and_malformed_lines.2.1 "=bad" (Or.inr (Or.inr (Or.inr (by decide)))),
   C7_missing_cell_and_malformed_lines.2.2.2 ⟨"code", ["parameters"], "# note\n\njusttext\n=bad"⟩
      (by decide) (by decide) (by decide)⟩

/-- C8: synthesis with the empty ParameterSet produces a valid template
with zero declared arguments and an empty flag list — the key join is
empty, the `for` loop iterates no words, `papermill_args` stays `""` —
while the command text still invokes `papermill` on the source notebook
path under `/mnt/repo/` and the fixed output path.  (The embedding is a
total function, matching the no-raise guarantee.) -/
theorem C8_empty_set_degrades (tn url br nbp img nsp : String) :
    (create_workflow_template tn url br nbp [] img nsp).arguments = []
    ∧ (create_workflow_template tn url br nbp [] img nsp).templates.map Container.args
        = [[scriptHead ++ scriptLoop ++ scriptInvoke ++ nbp ++ scriptTail]]
    ∧ joinKeys (([] : List ParamEntry).map ParamEntry.name) = ""
    ∧ (∀ resolve : String → String,
        papermill_args resolve
          (shellWords (joinKeys (([] : List ParamEntry).map ParamEntry.name))) "" = "")
    ∧ scriptInvoke = "papermill" ++ " \\\n                    " ++ "/mnt/repo/"
    ∧ scriptTail = " \\\n                    " ++ "/mnt/outputs/output_notebook.ipynb"
        ++ " \\\n                    $papermill_args\n                " := by
  refine ⟨rfl, ?_, rfl, fun resolve => rfl, by decide, by decide⟩
  simp [create_workflow_template, commandArgsText, joinKeys, strAppend_empty]

/-- C9: synthesis is deterministic — it is a pure function of its
inputs, so two invocations on pointwise-identical identity, parameter
set, image, notebook path and source location yield identical
declared-argument lists, identical command text, and in fact identical
whole templates. -/
theorem C9_synthesis_deterministic
    (tn tn2 url url2 br br2 nbp nbp2 img img2 nsp nsp2 : String)
    (ps ps2 : List ParamEntry)
    (h1 : tn = tn2) (h2 : url = url2) (h3 : br = br2) (h4 : nbp = nbp2)
    (h5 : ps = ps2) (h6 : img = img2) (h7 : nsp = nsp2) :
    (create_workflow_template tn url br nbp ps img nsp).arguments
        = (create_workflow_template tn2 url2 br2 nbp2 ps2 img2 nsp2).arguments
    ∧ (create_workflow_template tn url br nbp ps img nsp).templates.map Container.args
        = (create_workflow_template tn2 url2 br2 nbp2 ps2 img2 nsp2).templates.map
            Container.args
    ∧ create_workflow_template tn url br nbp ps img nsp
        = create_workflow_template tn2 url2 br2 nbp2 ps2 img2 nsp2 := by
  subst h1 h2 h3 h4 h5 h6 h7
  exact ⟨rfl, rfl, rfl⟩

/-- C9 witness: two invocations on the same concrete inputs. -/
theorem C9_synthesis_deterministic_witness :
    (create_workflow_template "t" "u" "b" "nb" [⟨"x", "1"⟩] "img" "argo").arguments
        = (create_workflow_template "t" "u" "b" "nb" [⟨"x", "1"⟩] "img" "argo").arguments
    ∧ (create_workflow_template "t" "u" "b" "nb" [⟨"x", "1"⟩] "img" "argo").templates.map
          Container.args
        = (create_workflow_template "t" "u" "b" "nb" [⟨"x", "1"⟩] "img" "argo").templates.map
            Container.args
    ∧ create_workflow_template "t" "u" "b" "nb" [⟨"x", "1"⟩] "img" "argo"
        = create_workflow_template "t" "u" "b" "nb" [⟨"x", "1"⟩] "img" "argo" :=
  C9_synthesis_deterministic "t" "t" "u" "u" "b" "b" "nb" "nb" "img" "img" "argo" "argo"
    [⟨"x", "1"⟩] [⟨"x", "1"⟩] rfl rfl rfl rfl rfl rfl rfl
